import Mathlib

/-!
# GeminiDoodle — verification of the generative-object pipeline

A shallow embedding of the core pipeline of the GeminiDoodle repository:

* `src/cache.js` — the two-tier cache (localStorage L1 + Firebase L2);
* `src/executor.js` — the sandbox executor, its `wrappedRegister`
  capability and the global ephemeral ring buffer;
* `main.js` — the orchestrator (`handleSearch` single-flight guard and the
  per-frame updater loop).

JavaScript state is passed explicitly; the asynchronous remote tier is a
value (`RemoteTier`) that is either reachable (a key/value store) or
unreachable (every read misses, every write is dropped), matching the
code's behaviour of swallowing all network failures.
-/

namespace GeminiDoodle

/-! ## Association-list stores

`localStorage` and the Firebase JSON tree are modelled as association
lists from string keys to string values; `storeSet` overwrites like
`localStorage.setItem` / an HTTP PUT. -/

def storeGet (store : List (String × String)) (key : String) : Option String :=
  (store.find? (fun p => p.1 == key)).map (fun p => p.2)

def storeSet (store : List (String × String)) (key val : String) :
    List (String × String) :=
  (key, val) :: store.filter (fun p => ¬ p.1 == key)

/-! ## JSON encoding of strings

`cache.js` stores `JSON.stringify(code)` and reads it back with
`JSON.parse`.  For string payloads this is quoting; character escaping is
omitted here because the development only relies on the two facts proved
below: the encoding round-trips and is never the empty string (so the
`val ? JSON.parse(val) : null` truthiness test on the *raw stored text*
always passes whenever the key is present in localStorage). -/

def jsonStringifyStr (s : String) : String := ⟨'"' :: (s.data ++ ['"'])⟩

def jsonParseStr (s : String) : String := ⟨(s.data.drop 1).dropLast⟩

/-! ## Tiered cache (`src/cache.js`)

The local tier is the localStorage association list (full keys, i.e.
`LS_NS ++ key`, mapped to the raw stored JSON text).  The remote tier
is either unreachable — covering both a missing `VITE_FIREBASE_DB_URL`
and any transport/HTTP failure, all of which the code turns into a miss
on read and a silent drop on write — or a reachable store from sanitized
Firebase keys to code strings (the JSON body round-trips through
PUT/GET, and `getFirebase` discards non-string payloads, so only string
values are representable). -/

def LS_NS : String := "objcache:"

/-- `key.replace(/[.$#\[\]/]/g, '_')` — Firebase keys cannot contain
`. $ # [ ] /`. -/
def encodeFirebaseKey (key : String) : String :=
  ⟨key.data.map (fun c =>
    if c = '.' ∨ c = '$' ∨ c = '#' ∨ c = '[' ∨ c = ']' ∨ c = '/' then '_' else c)⟩

inductive RemoteTier where
  | unreachable : RemoteTier
  | reachable : List (String × String) → RemoteTier
deriving DecidableEq, Repr

structure CacheState where
  localTier : List (String × String)
  remote : RemoteTier
deriving DecidableEq, Repr

/-- `getLocal(key)`: read the item at the namespaced key; the JS
`val ? JSON.parse(val) : null` returns `null` when the item is missing or
the raw text is the empty string (falsy), and the parsed string
otherwise. -/
def getLocal (ls : List (String × String)) (key : String) : Option String :=
  match storeGet ls (LS_NS ++ key) with
  | none => none
  | some val => if val = "" then none else some (jsonParseStr val)

/-- `setLocal(key, code)`: store the JSON-encoded code at the namespaced
key; a quota failure is swallowed (not modelled: the store always accepts
the write). -/
def setLocal (ls : List (String × String)) (key code : String) :
    List (String × String) :=
  storeSet ls (LS_NS ++ key) (jsonStringifyStr code)

/-- `getFirebase(key)`: `null` when there is no URL or the fetch fails or
the response is not ok or not a string — all folded into the
`unreachable` case or a store miss. -/
def getFirebase (remote : RemoteTier) (key : String) : Option String :=
  match remote with
  | .unreachable => none
  | .reachable store => storeGet store (encodeFirebaseKey key)

/-- `setFirebase(key, code)`: fire-and-forget PUT; dropped when
unreachable, errors swallowed. -/
def setFirebase (remote : RemoteTier) (key code : String) : RemoteTier :=
  match remote with
  | .unreachable => .unreachable
  | .reachable store => .reachable (storeSet store (encodeFirebaseKey key) code)

/-- `cache.get(key)`: L1 first (`if (local)` — JS truthiness, so an empty
string counts as a miss), then L2; on a truthy remote hit the value is
promoted into L1 before being returned.  Returns the result and the
updated cache state. -/
def cacheGet (cs : CacheState) (key : String) : Option String × CacheState :=
  match getLocal cs.localTier key with
  | some localVal =>
    if localVal = "" then cacheGetRemote cs key else (some localVal, cs)
  | none => cacheGetRemote cs key
where
  cacheGetRemote (cs : CacheState) (key : String) : Option String × CacheState :=
    match getFirebase cs.remote key with
    | some remoteVal =>
      if remoteVal = "" then (none, cs)
      else (some remoteVal, { cs with localTier := setLocal cs.localTier key remoteVal })
    | none => (none, cs)

/-- `cache.set(key, code)`: synchronous local write, fire-and-forget
remote write. -/
def cacheSet (cs : CacheState) (key code : String) : CacheState :=
  { localTier := setLocal cs.localTier key code,
    remote := setFirebase cs.remote key code }

/-! ## Physics world (planck boundary)

Bodies are identified by `Nat` ids allocated from a fresh counter; a
body carries exactly the properties the pipeline reads or writes:
gravity scale, per-fixture densities, the `userData.isEphemeral` tag and
the active flag.  `destroyBody` removes the body from the world and logs
the id (ghost), so "destroyed exactly once" is the count in the log; a
destroyed body reports `isActiveB = false` ("inactive/destroyed" in the
spec's words). -/

structure Body where
  gravityScale : Int
  densities : List Int
  isEphemeralUD : Bool
  active : Bool
deriving DecidableEq, Repr

structure World where
  bodies : List (Nat × Body)
  nextId : Nat
  destroyLog : List Nat
deriving DecidableEq, Repr

def createBody (w : World) (gravityScale : Int) (densities : List Int) : Nat × World :=
  (w.nextId,
   { bodies := w.bodies ++
       [(w.nextId,
         { gravityScale := gravityScale, densities := densities,
           isEphemeralUD := false, active := true })],
     nextId := w.nextId + 1,
     destroyLog := w.destroyLog })

def destroyBody (w : World) (bid : Nat) : World :=
  { bodies := w.bodies.filter (fun p => ¬ p.1 = bid),
    nextId := w.nextId,
    destroyLog := w.destroyLog ++ [bid] }

def lookupBody (w : World) (bid : Nat) : Option Body :=
  (w.bodies.find? (fun p => p.1 == bid)).map (fun p => p.2)

def isActiveB (w : World) (bid : Nat) : Bool :=
  match lookupBody w bid with
  | some b => b.active
  | none => false

def setActive (a : Bool) (b : Body) : Body := { b with active := a }

/-- External collaborators (out-of-bounds cleanup, combat consumption,
`body.setActive`) can deactivate a body; this is the boundary action the
root-body death check observes. -/
def setActiveB (w : World) (bid : Nat) (a : Bool) : World :=
  { w with bodies := w.bodies.map (fun p =>
      if p.1 = bid then (p.1, setActive a p.2) else p) }

/-- The body-property mutations `wrappedRegister` performs on an
update-time registration: tag `userData.isEphemeral`, `setGravityScale(0)`
and zero every fixture density (`resetMassData` has no further observable
in this model). -/
def zeroWeight (b : Body) : Body :=
  { b with gravityScale := 0,
           densities := b.densities.map (fun _ => 0),
           isEphemeralUD := true }

def zeroBodyWeight (w : World) (bid : Nat) : World :=
  { w with bodies := w.bodies.map (fun p =>
      if p.1 = bid then (p.1, zeroWeight p.2) else p) }

/-! ## Tracked objects, registry and the ephemeral ring buffer
(`src/executor.js`, `src/objects.js`)

A `TrackedObject` is a record handed to `register` by the generated
code.  The JS mutates the object's fields (`spawned`, `ephemeral`) around
the `registerObject` call; values being immutable here, the final field
values are computed up front — `ephemeral` is set (to `true`) only in the
update branch in the JS, and left `undefined` (falsy) otherwise, modelled
as `false`.  `oid` is the ghost of JS object identity, which
`unregisterObject`'s `indexOf` uses. -/

structure Obj where
  oid : Nat
  bodyId : Nat
  spawned : Bool
  ephemeral : Bool
deriving DecidableEq, Repr

def MAX_EPHEMERAL : Nat := 200

/-- Ghost record of one `origUpdate()` invocation: which updater, and
whether the call returned normally (`ok = true`) or threw. -/
structure TickEv where
  uid : Nat
  ok : Bool
deriving DecidableEq, Repr

/-- The executor-level mutable state: the physics world, the Object
Registry (`objects` in `objects.js`), the global ephemeral ring buffer
(oldest first), the object-identity counter and the ghost tick log. -/
structure ExecCore where
  world : World
  registry : List Obj
  ephemeral : List Obj
  nextOid : Nat
  tickLog : List TickEv
deriving DecidableEq, Repr

/-- What the generated code passes to `register`: a freshly created body
with these initial properties, wrapped in a tracked-object record. -/
structure RegSpec where
  gravityScale : Int
  densities : List Int
deriving DecidableEq, Repr

/-- `wrappedRegister(obj)` from `execute`'s closure: set `obj.spawned`,
`registerObject(obj)` (append to the registry), then — when inside an
update tick — tag the object and its body ephemeral, zero its weight,
push it onto the global ring buffer and, past capacity, shift the oldest
entry, `unregisterObject` it (remove the first identity match) and
destroy its body.  Outside an update tick the body id is handed back for
the caller's `rootBodies.push`. -/
def wrappedRegister (inUpdate : Bool) (c : ExecCore) (spec : RegSpec) :
    ExecCore × Nat :=
  let pr := createBody c.world spec.gravityScale spec.densities
  let bid := pr.1
  let obj : Obj :=
    { oid := c.nextOid, bodyId := bid, spawned := true, ephemeral := inUpdate }
  let c1 : ExecCore :=
    { c with world := pr.2, nextOid := c.nextOid + 1,
             registry := c.registry ++ [obj] }
  match inUpdate with
  | true =>
    let c2 : ExecCore :=
      { c1 with world := zeroBodyWeight c1.world bid,
                ephemeral := c1.ephemeral ++ [obj] }
    match c2.ephemeral with
    | [] => (c2, bid)
    | old :: rest =>
      if MAX_EPHEMERAL < (old :: rest).length then
        ({ c2 with ephemeral := rest,
                   registry := c2.registry.eraseP (fun o => o.oid == old.oid),
                   world := destroyBody c2.world old.bodyId }, bid)
      else (c2, bid)
  | false => (c1, bid)

/-- The tracked-object value an update-time `wrappedRegister` call
constructs (the body is the freshly allocated id). -/
def newObjOf (c : ExecCore) : Obj :=
  { oid := c.nextOid, bodyId := c.world.nextId, spawned := true, ephemeral := true }

/-- The tracked-object value a setup-time `wrappedRegister` call
constructs (`obj.ephemeral` is left unset in the JS, i.e. falsy). -/
def newSetupObjOf (c : ExecCore) : Obj :=
  { oid := c.nextOid, bodyId := c.world.nextId, spawned := true, ephemeral := false }

/-- A body id the frame machinery cannot touch: already allocated (so
fresh ids differ from it) and not in the ephemeral ring (so evictions
never destroy it).  Root bodies in reachable states satisfy this. -/
def BodyStable (c : ExecCore) (b : Nat) : Prop :=
  b < c.world.nextId ∧ b ∉ c.ephemeral.map Obj.bodyId

/-! ## Behaviors and the per-frame loop (`executor.js` + `main.js`)

A generated `update` capability is modelled as a script mapping the
invocation count to what that invocation does: a list of `register`
calls followed by an optional throw.  The wrapper around it re-checks the
root bodies before every tick. -/

structure Tick where
  regs : List RegSpec
  throws : Bool

/-- The object pushed onto `updaters`: `{ dead, rootBodies, update() }`.
`uid` is the ghost of JS object identity, `calls` the ghost invocation
counter indexing `script`. -/
structure Updater where
  uid : Nat
  dead : Bool
  rootBodies : List Nat
  script : Nat → Tick
  calls : Nat

/-- The root-body guard will not fire for `u`, stably through a frame:
either no root bodies at all, or some root body is active and stable. -/
def Tickable (c : ExecCore) (u : Updater) : Prop :=
  u.rootBodies = [] ∨ ∃ b ∈ u.rootBodies, isActiveB c.world b = true ∧ BodyStable c b

/-- The root-body guard fires for `u`, stably through a frame: at least
one root body, and all of them inactive and stable. -/
def DeadStable (c : ExecCore) (u : Updater) : Prop :=
  u.rootBodies ≠ [] ∧ ∀ b ∈ u.rootBodies, isActiveB c.world b = false ∧ BodyStable c b

def runRegs (c : ExecCore) (regs : List RegSpec) : ExecCore :=
  regs.foldl (fun c spec => (wrappedRegister true c spec).1) c

/-- One `updaters[i].update()` call under the loop's try/catch.  First
the wrapper's guard: if there is at least one root body and every root
body is inactive, mark the handle dead and return without invoking the
generated update.  Otherwise invoke `origUpdate` (logged as a tick
event): its registrations run with `inUpdate` set, and if it throws the
loop splices the updater out (`none`); otherwise the updater survives. -/
def stepOne (c : ExecCore) (u : Updater) : ExecCore × Option Updater :=
  if 0 < u.rootBodies.length ∧
      (u.rootBodies.all fun b => !isActiveB c.world b) = true then
    (c, some { u with dead := true })
  else
    let t := u.script u.calls
    let c1 : ExecCore := { c with tickLog := c.tickLog ++ [⟨u.uid, !t.throws⟩] }
    let c2 := runRegs c1 t.regs
    if t.throws then (c2, none) else (c2, some { u with calls := u.calls + 1 })

/-- The loop body over the *reversed* updater list — the JS `loop()`
iterates `i` from `updaters.length - 1` down to `0`, so the most recently
registered behavior is processed first.  Threads the core and returns the
survivors in that same reversed order. -/
def processRev (c : ExecCore) : List Updater → ExecCore × List Updater
  | [] => (c, [])
  | u :: rest =>
    let pr := stepOne c u
    let pr2 := processRev pr.1 rest
    (pr2.1, pr.2.toList ++ pr2.2)

structure SimState where
  core : ExecCore
  updaters : List Updater
  nextUid : Nat

/-- One simulation frame's worth of updater processing (the generated
part of `loop()`): run every updater in reverse index order, keep the
survivors in their original order. -/
def runFrame (st : SimState) : SimState :=
  let pr := processRev st.core st.updaters.reverse
  { st with core := pr.1, updaters := pr.2.reverse }

def runFrames (st : SimState) : Nat → SimState
  | 0 => st
  | n + 1 => runFrames (runFrame st) n

/-! ## `execute` (`src/executor.js`) -/

/-- The one-time setup invocation of the compiled artifact: a sequence of
`register` calls, then either a throw or a return value that may expose
an `update` capability. -/
structure SetupProg where
  regs : List RegSpec
  throws : Bool
  ret : Option (Nat → Tick)

/-- A code artifact as the engine reads it: `new Function` either throws
(malformed source) or yields a callable setup program. -/
inductive Artifact where
  | malformed : Artifact
  | ok : SetupProg → Artifact

/-- The two error kinds `execute` raises: "Syntax error in generated
code" (compilation) and "Runtime error in generated code" (setup
invocation). -/
inductive ExecError where
  | syntaxError : ExecError
  | runtimeError : ExecError
deriving DecidableEq, Repr

def runSetupRegs (c : ExecCore) (regs : List RegSpec) : ExecCore × List Nat :=
  regs.foldl
    (fun (p : ExecCore × List Nat) spec =>
      let pr := wrappedRegister false p.1 spec
      (pr.1, p.2 ++ [pr.2]))
    (c, [])

/-- `execute(code, spawnX, spawnY)`: compile (may fail with the syntax
kind), invoke once (registrations already performed stay in place if the
invocation throws — no rollback), and if the result exposes `update`,
push a fresh behavior handle onto `updaters`. -/
def execute (st : SimState) (a : Artifact) : SimState × Option ExecError :=
  match a with
  | .malformed => (st, some .syntaxError)
  | .ok p =>
    let pr := runSetupRegs st.core p.regs
    if p.throws then ({ st with core := pr.1 }, some .runtimeError)
    else
      match p.ret with
      | none => ({ st with core := pr.1 }, none)
      | some scr =>
        ({ core := pr.1,
           updaters := st.updaters ++
             [{ uid := st.nextUid, dead := false, rootBodies := pr.2,
                script := scr, calls := 0 }],
           nextUid := st.nextUid + 1 }, none)

/-! ## Orchestrator (`main.js`) -/

inductive SubmitError where
  | normalization : SubmitError
  | generation : SubmitError
  | execution : ExecError → SubmitError
deriving DecidableEq, Repr

/-- The body of `handleSearch` after the single-flight guard: normalize
the prompt, consult the cache, on a hit execute the cached artifact, on a
miss generate, execute and only then write the cache.  `decode` is the
engine's reading of a code string; `norm` and `gen` are the external
Gemini calls (`none` = the awaited promise rejected). -/
def submitPipeline (decode : String → Artifact) (norm : Option String)
    (gen : Option String) (cs : CacheState) (st : SimState) :
    Option SubmitError × CacheState × SimState :=
  match norm with
  | none => (some .normalization, cs, st)
  | some key =>
    match cacheGet cs key with
    | (some cachedCode, cs1) =>
      let pr := execute st (decode cachedCode)
      match pr.2 with
      | some e => (some (.execution e), cs1, pr.1)
      | none => (none, cs1, pr.1)
    | (none, cs1) =>
      match gen with
      | none => (some .generation, cs1, st)
      | some code =>
        let pr := execute st (decode code)
        match pr.2 with
        | some e => (some (.execution e), cs1, pr.1)
        | none => (none, cacheSet cs1 key code, pr.1)

/-! ## Single-flight guard (`main.js`)

`handleSearch` is an async function; its observable locking behaviour is
the `isGenerating` flag, set synchronously by the guard prologue and
cleared by the `finally` block.  Submissions and their terminations are
events; `active` is the ghost list of submissions past the guard whose
`finally` has not yet run, and `rejected` the ghost log of guard
early-returns. -/

inductive OrchEv where
  | submit : Nat → OrchEv
  | finish : Nat → OrchEv
deriving DecidableEq, Repr

structure OrchState where
  isGenerating : Bool
  active : List Nat
  rejected : List Nat
deriving DecidableEq, Repr

def orchInit : OrchState := { isGenerating := false, active := [], rejected := [] }

/-- `submit i`: `if (isGenerating) return; isGenerating = true; …`.
`finish i`: the `finally` block — `isGenerating = false` — which only a
submission that passed the guard ever reaches (hence the membership
guard; a guard-rejected submission returns before the `try`). -/
def orchStep (s : OrchState) : OrchEv → OrchState
  | .submit i =>
    if s.isGenerating then { s with rejected := s.rejected ++ [i] }
    else { s with isGenerating := true, active := s.active ++ [i] }
  | .finish i =>
    if i ∈ s.active then
      { s with isGenerating := false, active := s.active.erase i }
    else s

def orchRun (s : OrchState) (evs : List OrchEv) : OrchState :=
  evs.foldl orchStep s

/-- The single-flight invariant: at most one submission is past the guard
at any moment, and the `isGenerating` flag is set exactly while one
is. -/
def OrchInv (s : OrchState) : Prop :=
  s.active.length ≤ 1 ∧ (s.isGenerating = true ↔ s.active ≠ [])

/-- A simulation with no behaviors yet. -/
def emptySim : SimState :=
  { core := { world := { bodies := [], nextId := 0, destroyLog := [] },
              registry := [], ephemeral := [], nextOid := 0, tickLog := [] },
    updaters := [], nextUid := 0 }

/-- The ghost tick events belonging to updater identity `i`. -/
def uidEvents (log : List TickEv) (i : Nat) : List TickEv :=
  log.filter (fun e => e.uid == i)

/-! ## Concrete scenarios used by the testable properties -/

def emptyCache : CacheState := { localTier := [], remote := .unreachable }

def unitSpec : RegSpec := { gravityScale := 1, densities := [1] }

def emptyCore : ExecCore :=
  { world := { bodies := [], nextId := 0, destroyLog := [] },
    registry := [], ephemeral := [], nextOid := 0, tickLog := [] }

/-- A generated update that does nothing each tick. -/
def benignScript : Nat → Tick := fun _ => { regs := [], throws := false }

/-- A generated update that throws on its 3rd invocation. -/
def throwsThirdScript : Nat → Tick := fun n => { regs := [], throws := n == 2 }

/-- 250 update-time registrations in sequence — the registration path a
tick's `origUpdate` drives through the `register` capability. -/
def reg250 : ExecCore := runRegs emptyCore (List.replicate 250 unitSpec)

/-- Two behaviors: the first throws on its 3rd tick, the second is
benign. -/
def stFault : SimState :=
  { core := emptyCore,
    updaters :=
      [{ uid := 0, dead := false, rootBodies := [],
         script := throwsThirdScript, calls := 0 },
       { uid := 1, dead := false, rootBodies := [],
         script := benignScript, calls := 0 }],
    nextUid := 2 }

/-- A world with a single root body (id 0), as a setup registration
leaves it. -/
def oneRootCore : ExecCore :=
  { world := { bodies := [(0, { gravityScale := 1, densities := [1],
                                isEphemeralUD := false, active := true })],
               nextId := 1, destroyLog := [] },
    registry := [{ oid := 0, bodyId := 0, spawned := true, ephemeral := false }],
    ephemeral := [], nextOid := 1, tickLog := [] }

/-- A behavior with one root body that an external collaborator has just
deactivated. -/
def stDeadRoot : SimState :=
  { core := { oneRootCore with world := setActiveB oneRootCore.world 0 false },
    updaters := [{ uid := 0, dead := false, rootBodies := [0],
                   script := benignScript, calls := 0 }],
    nextUid := 1 }

/-- A full ring of 200 ephemeral objects (body ids 0–199). -/
def ring200 : List Obj :=
  (List.range 200).map
    (fun i => { oid := i, bodyId := i, spawned := true, ephemeral := true })

/-- A core whose ephemeral ring is at capacity. -/
def fullCore : ExecCore :=
  { world := { bodies := [], nextId := 200, destroyLog := [] },
    registry := ring200, ephemeral := ring200, nextOid := 200, tickLog := [] }

/-- Two benign behaviors registered in order 0, 1. -/
def stTwo : SimState :=
  { core := emptyCore,
    updaters :=
      [{ uid := 0, dead := false, rootBodies := [],
         script := benignScript, calls := 0 },
       { uid := 1, dead := false, rootBodies := [],
         script := benignScript, calls := 0 }],
    nextUid := 2 }

/-! # Lemmas and theorems -/

theorem storeGet_storeSet_self (store : List (String × String)) (key val : String) :
    storeGet (storeSet store key val) key = some val := by
  simp [storeGet, storeSet, List.find?]

theorem jsonParse_stringify (s : String) : jsonParseStr (jsonStringifyStr s) = s := by
  cases s with
  | mk data => simp [jsonParseStr, jsonStringifyStr]

theorem jsonStringify_ne_empty (s : String) : jsonStringifyStr s ≠ "" := by
  intro h
  have h2 : ('"' :: (s.data ++ ['"'])) = ([] : List Char) := congrArg String.data h
  simp at h2

theorem getLocal_setLocal_self (ls : List (String × String)) (key code : String) :
    getLocal (setLocal ls key code) key = some code := by
  simp only [getLocal, setLocal, storeGet_storeSet_self,
    if_neg (jsonStringify_ne_empty code), jsonParse_stringify]

/-- Round-trip on the cache for a nonempty artifact, with an arbitrary
remote tier (in particular an unreachable one). -/
theorem cacheGet_cacheSet_self (cs : CacheState) (key code : String) (h : code ≠ "") :
    (cacheGet (cacheSet cs key code) key).1 = some code := by
  simp only [cacheGet, cacheSet, getLocal_setLocal_self, if_neg h]

/-! ### Keyed-list lookup helpers -/

theorem find?_keyed_append_ne (l : List (Nat × Body)) (b k : Nat) (body : Body)
    (h : b ≠ k) :
    (l ++ [(k, body)]).find? (fun p => p.1 == b) = l.find? (fun p => p.1 == b) := by
  induction l with
  | nil =>
    rw [List.nil_append, List.find?_cons_of_neg, List.find?_nil]
    simp [Ne.symm h]
  | cons hd tl ih =>
    by_cases hb : hd.1 = b
    · rw [List.cons_append, List.find?_cons_of_pos, List.find?_cons_of_pos] <;>
        simp [hb]
    · rw [List.cons_append, List.find?_cons_of_neg, List.find?_cons_of_neg]
      · exact ih
      · simp [hb]
      · simp [hb]

theorem find?_keyed_map_if_ne (l : List (Nat × Body)) (b bid : Nat)
    (f : Body → Body) (h : b ≠ bid) :
    (l.map (fun p => if p.1 = bid then (p.1, f p.2) else p)).find?
        (fun p => p.1 == b) =
      l.find? (fun p => p.1 == b) := by
  induction l with
  | nil => simp
  | cons hd tl ih =>
    have hkey : (if hd.1 = bid then (hd.1, f hd.2) else hd).1 = hd.1 := by
      split <;> rfl
    by_cases hb : hd.1 = b
    · have hnbid : ¬ hd.1 = bid := by rw [hb]; exact h
      rw [List.map_cons, List.find?_cons_of_pos, List.find?_cons_of_pos]
      · rw [if_neg hnbid]
      · simp [hb]
      · rw [hkey]; simp [hb]
    · rw [List.map_cons, List.find?_cons_of_neg, List.find?_cons_of_neg]
      · exact ih
      · simp [hb]
      · rw [hkey]; simp [hb]

theorem find?_keyed_filter_ne (l : List (Nat × Body)) (b bid : Nat) (h : b ≠ bid) :
    (l.filter (fun p => ¬ p.1 = bid)).find? (fun p => p.1 == b) =
      l.find? (fun p => p.1 == b) := by
  induction l with
  | nil => simp
  | cons hd tl ih =>
    by_cases hbid : hd.1 = bid
    · have hdrop : (decide ¬ hd.1 = bid) = false := by simp [hbid]
      rw [List.filter_cons, hdrop, if_neg (by simp), List.find?_cons_of_neg]
      · exact ih
      · simp [hbid, Ne.symm h]
    · have hkeep : (decide ¬ hd.1 = bid) = true := by simp [hbid]
      rw [List.filter_cons, hkeep, if_pos rfl]
      by_cases hb : hd.1 = b
      · rw [List.find?_cons_of_pos, List.find?_cons_of_pos] <;> simp [hb]
      · rw [List.find?_cons_of_neg, List.find?_cons_of_neg]
        · exact ih
        · simp [hb]
        · simp [hb]

/-! ### `lookupBody` through world operations -/

theorem lookupBody_createBody (w : World) (g : Int) (d : List Int) (b : Nat)
    (h : b ≠ w.nextId) :
    lookupBody (createBody w g d).2 b = lookupBody w b := by
  simp only [lookupBody, createBody]
  rw [find?_keyed_append_ne _ _ _ _ h]

theorem lookupBody_zeroBodyWeight (w : World) (bid b : Nat) (h : b ≠ bid) :
    lookupBody (zeroBodyWeight w bid) b = lookupBody w b := by
  simp only [lookupBody, zeroBodyWeight]
  rw [find?_keyed_map_if_ne w.bodies b bid zeroWeight h]

theorem lookupBody_setActiveB (w : World) (bid b : Nat) (a : Bool) (h : b ≠ bid) :
    lookupBody (setActiveB w bid a) b = lookupBody w b := by
  simp only [lookupBody, setActiveB]
  rw [find?_keyed_map_if_ne w.bodies b bid (setActive a) h]

theorem lookupBody_destroyBody (w : World) (bid b : Nat) (h : b ≠ bid) :
    lookupBody (destroyBody w bid) b = lookupBody w b := by
  simp only [lookupBody, destroyBody]
  rw [find?_keyed_filter_ne _ _ _ h]

theorem isActiveB_eq_of_lookup (w w' : World) (b : Nat)
    (h : lookupBody w' b = lookupBody w b) : isActiveB w' b = isActiveB w b := by
  simp only [isActiveB, h]

theorem createBody_fst (w : World) (g : Int) (d : List Int) :
    (createBody w g d).1 = w.nextId := rfl

theorem createBody_snd_nextId (w : World) (g : Int) (d : List Int) :
    (createBody w g d).2.nextId = w.nextId + 1 := rfl

theorem createBody_snd_destroyLog (w : World) (g : Int) (d : List Int) :
    (createBody w g d).2.destroyLog = w.destroyLog := rfl

theorem zeroBodyWeight_nextId (w : World) (bid : Nat) :
    (zeroBodyWeight w bid).nextId = w.nextId := rfl

theorem zeroBodyWeight_destroyLog (w : World) (bid : Nat) :
    (zeroBodyWeight w bid).destroyLog = w.destroyLog := rfl

theorem destroyBody_nextId (w : World) (bid : Nat) :
    (destroyBody w bid).nextId = w.nextId := rfl

theorem destroyBody_destroyLog (w : World) (bid : Nat) :
    (destroyBody w bid).destroyLog = w.destroyLog ++ [bid] := rfl

/-! ### `wrappedRegister` case analysis -/

/-- Setup-time registration: tag `spawned`, append to the registry,
return the body id for `rootBodies.push`; no ring-buffer interaction, no
body mutation, no bound check. -/
theorem wrappedRegister_false (c : ExecCore) (spec : RegSpec) :
    wrappedRegister false c spec =
      ({ c with
           world := (createBody c.world spec.gravityScale spec.densities).2,
           nextOid := c.nextOid + 1,
           registry := c.registry ++ [newSetupObjOf c] },
       c.world.nextId) := rfl

/-- Update-time registration with room in the ring: the object is also
appended to the ring, and its body's weight zeroed. -/
theorem wrappedRegister_true_noevict (c : ExecCore) (spec : RegSpec)
    (h : c.ephemeral.length + 1 ≤ MAX_EPHEMERAL) :
    wrappedRegister true c spec =
      ({ world := zeroBodyWeight
           (createBody c.world spec.gravityScale spec.densities).2 c.world.nextId,
         registry := c.registry ++ [newObjOf c],
         ephemeral := c.ephemeral ++ [newObjOf c],
         nextOid := c.nextOid + 1,
         tickLog := c.tickLog }, c.world.nextId) := by
  cases he : c.ephemeral with
  | nil =>
    simp only [wrappedRegister, he, newObjOf, createBody_fst, List.nil_append]
    rw [if_neg]
    simp [MAX_EPHEMERAL]
  | cons hd tl =>
    rw [he] at h
    simp only [wrappedRegister, he, newObjOf, createBody_fst, List.cons_append]
    rw [if_neg]
    simp only [List.length_cons, List.length_append, List.length_singleton,
      List.length_nil]
    simp only [List.length_cons] at h
    omega

/-- Update-time registration into a full ring: additionally the oldest
entry is shifted off, removed from the registry and its body
destroyed. -/
theorem wrappedRegister_true_evict (c : ExecCore) (spec : RegSpec)
    (hd : Obj) (tl : List Obj) (he : c.ephemeral = hd :: tl)
    (h : MAX_EPHEMERAL ≤ c.ephemeral.length) :
    wrappedRegister true c spec =
      ({ world := destroyBody
           (zeroBodyWeight
             (createBody c.world spec.gravityScale spec.densities).2
             c.world.nextId)
           hd.bodyId,
         registry := (c.registry ++ [newObjOf c]).eraseP (fun o => o.oid == hd.oid),
         ephemeral := tl ++ [newObjOf c],
         nextOid := c.nextOid + 1,
         tickLog := c.tickLog }, c.world.nextId) := by
  have hlen : MAX_EPHEMERAL < (c.ephemeral ++ [newObjOf c]).length := by
    simp only [List.length_append, List.length_singleton]
    omega
  simp only [wrappedRegister, he, List.cons_append]
  rw [if_pos]
  · rfl
  · simpa [newObjOf, he] using hlen

/-! ### Ring-buffer length and ghost-field preservation -/

theorem wrappedRegister_true_ephemeral_length (c : ExecCore) (spec : RegSpec) :
    (wrappedRegister true c spec).1.ephemeral.length =
      if MAX_EPHEMERAL < c.ephemeral.length + 1 then c.ephemeral.length
      else c.ephemeral.length + 1 := by
  by_cases hlt : MAX_EPHEMERAL < c.ephemeral.length + 1
  · cases he : c.ephemeral with
    | nil =>
      rw [he] at hlt
      simp [MAX_EPHEMERAL] at hlt
    | cons hd tl =>
      rw [he] at hlt
      rw [wrappedRegister_true_evict c spec hd tl he (by rw [he]; simp at hlt ⊢; omega)]
      rw [if_pos hlt]
      simp
  · rw [wrappedRegister_true_noevict c spec (by omega), if_neg hlt]
    simp

theorem wrappedRegister_true_ephemeral_le (c : ExecCore) (spec : RegSpec)
    (h : c.ephemeral.length ≤ MAX_EPHEMERAL) :
    (wrappedRegister true c spec).1.ephemeral.length ≤ MAX_EPHEMERAL := by
  rw [wrappedRegister_true_ephemeral_length]
  split <;> omega

theorem wrappedRegister_true_tickLog (c : ExecCore) (spec : RegSpec) :
    (wrappedRegister true c spec).1.tickLog = c.tickLog := by
  by_cases hlt : MAX_EPHEMERAL < c.ephemeral.length + 1
  · cases he : c.ephemeral with
    | nil =>
      rw [he] at hlt
      simp [MAX_EPHEMERAL] at hlt
    | cons hd tl =>
      rw [wrappedRegister_true_evict c spec hd tl he (by rw [he]; rw [he] at hlt; simp at hlt ⊢; omega)]
  · rw [wrappedRegister_true_noevict c spec (by omega)]

/-! ### Stability of already-allocated, non-ring bodies -/

theorem wrappedRegister_true_stable (c : ExecCore) (spec : RegSpec) (b : Nat)
    (hb : BodyStable c b) :
    lookupBody (wrappedRegister true c spec).1.world b = lookupBody c.world b ∧
      BodyStable (wrappedRegister true c spec).1 b := by
  obtain ⟨hlt, hmem⟩ := hb
  have hbne : b ≠ c.world.nextId := Nat.ne_of_lt hlt
  by_cases hcap : MAX_EPHEMERAL < c.ephemeral.length + 1
  · cases he : c.ephemeral with
    | nil =>
      rw [he] at hcap
      simp [MAX_EPHEMERAL] at hcap
    | cons hd tl =>
      have hbhd : b ≠ hd.bodyId := by
        intro hcontra
        apply hmem
        rw [he, hcontra]
        exact List.mem_map_of_mem Obj.bodyId (List.mem_cons_self hd tl)
      rw [wrappedRegister_true_evict c spec hd tl he (by rw [he]; rw [he] at hcap; simp at hcap ⊢; omega)]
      refine ⟨?_, ?_, ?_⟩
      · rw [lookupBody_destroyBody _ _ _ hbhd, lookupBody_zeroBodyWeight _ _ _ hbne,
          lookupBody_createBody _ _ _ _ hbne]
      · show b < (destroyBody _ _).nextId
        rw [destroyBody_nextId, zeroBodyWeight_nextId, createBody_snd_nextId]
        omega
      · show b ∉ (tl ++ [newObjOf c]).map Obj.bodyId
        rw [List.map_append]
        intro hc
        rcases List.mem_append.1 hc with h1 | h1
        · exact hmem (by rw [he]; exact List.mem_map.2 (by
            rcases List.mem_map.1 h1 with ⟨o, ho, rfl⟩
            exact ⟨o, List.mem_cons_of_mem hd ho, rfl⟩))
        · simp [newObjOf] at h1
          exact hbne h1
  · rw [wrappedRegister_true_noevict c spec (by omega)]
    refine ⟨?_, ?_, ?_⟩
    · rw [lookupBody_zeroBodyWeight _ _ _ hbne, lookupBody_createBody _ _ _ _ hbne]
    · show b < (zeroBodyWeight _ _).nextId
      rw [zeroBodyWeight_nextId, createBody_snd_nextId]
      omega
    · show b ∉ (c.ephemeral ++ [newObjOf c]).map Obj.bodyId
      rw [List.map_append]
      intro hc
      rcases List.mem_append.1 hc with h1 | h1
      · exact hmem h1
      · simp [newObjOf] at h1
        exact hbne h1

theorem runRegs_stable (regs : List RegSpec) (c : ExecCore) (b : Nat)
    (hb : BodyStable c b) :
    lookupBody (runRegs c regs).world b = lookupBody c.world b ∧
      BodyStable (runRegs c regs) b := by
  induction regs generalizing c with
  | nil => exact ⟨rfl, hb⟩
  | cons spec rest ih =>
    have h1 := wrappedRegister_true_stable c spec b hb
    have hstep : runRegs c (spec :: rest) = runRegs (wrappedRegister true c spec).1 rest := rfl
    rw [hstep]
    have h2 := ih (wrappedRegister true c spec).1 h1.2
    exact ⟨h2.1.trans h1.1, h2.2⟩

theorem runRegs_tickLog (regs : List RegSpec) (c : ExecCore) :
    (runRegs c regs).tickLog = c.tickLog := by
  induction regs generalizing c with
  | nil => rfl
  | cons spec rest ih =>
    have hstep : runRegs c (spec :: rest) = runRegs (wrappedRegister true c spec).1 rest := rfl
    rw [hstep, ih, wrappedRegister_true_tickLog]

/-! ### `stepOne` case analysis and preservation -/

theorem stepOne_skip (c : ExecCore) (u : Updater)
    (h : 0 < u.rootBodies.length ∧
      (u.rootBodies.all fun b => !isActiveB c.world b) = true) :
    stepOne c u = (c, some { u with dead := true }) := by
  rw [stepOne, if_pos h]

theorem stepOne_tick_throw (c : ExecCore) (u : Updater)
    (h : ¬ (0 < u.rootBodies.length ∧
      (u.rootBodies.all fun b => !isActiveB c.world b) = true))
    (ht : (u.script u.calls).throws = true) :
    stepOne c u =
      (runRegs { c with tickLog := c.tickLog ++ [⟨u.uid, !(u.script u.calls).throws⟩] }
         (u.script u.calls).regs, none) := by
  simp only [stepOne]
  rw [if_neg h, ht]
  rfl

theorem stepOne_tick_ok (c : ExecCore) (u : Updater)
    (h : ¬ (0 < u.rootBodies.length ∧
      (u.rootBodies.all fun b => !isActiveB c.world b) = true))
    (ht : (u.script u.calls).throws = false) :
    stepOne c u =
      (runRegs { c with tickLog := c.tickLog ++ [⟨u.uid, !(u.script u.calls).throws⟩] }
         (u.script u.calls).regs, some { u with calls := u.calls + 1 }) := by
  simp only [stepOne]
  rw [if_neg h, ht]
  rfl

theorem tickable_not_guard (c : ExecCore) (u : Updater) (ht : Tickable c u) :
    ¬ (0 < u.rootBodies.length ∧
      (u.rootBodies.all fun b => !isActiveB c.world b) = true) := by
  rcases ht with hnil | ⟨b, hb, hact, _⟩
  · intro hc
    rw [hnil] at hc
    simp at hc
  · intro hc
    have := (List.all_eq_true.1 hc.2) b hb
    rw [hact] at this
    simp at this

theorem deadStable_guard (c : ExecCore) (u : Updater) (hd : DeadStable c u) :
    0 < u.rootBodies.length ∧
      (u.rootBodies.all fun b => !isActiveB c.world b) = true := by
  obtain ⟨hne, hall⟩ := hd
  constructor
  · cases hu : u.rootBodies with
    | nil => exact absurd hu hne
    | cons a l => simp [hu]
  · exact List.all_eq_true.2 (fun b hb => by rw [(hall b hb).1]; rfl)

theorem stepOne_stable (c : ExecCore) (u : Updater) (b : Nat)
    (hb : BodyStable c b) :
    lookupBody (stepOne c u).1.world b = lookupBody c.world b ∧
      BodyStable (stepOne c u).1 b := by
  simp only [stepOne]
  split
  · exact ⟨rfl, hb⟩
  · have hb1 : BodyStable
        { c with tickLog := c.tickLog ++ [⟨u.uid, !(u.script u.calls).throws⟩] } b := hb
    have h2 := runRegs_stable (u.script u.calls).regs _ b hb1
    split
    · exact h2
    · exact h2

theorem stepOne_isActive_stable (c : ExecCore) (u : Updater) (b : Nat)
    (hb : BodyStable c b) :
    isActiveB (stepOne c u).1.world b = isActiveB c.world b :=
  isActiveB_eq_of_lookup _ _ _ (stepOne_stable c u b hb).1

theorem stepOne_preserves_tickable (c : ExecCore) (u v : Updater)
    (hv : Tickable c v) : Tickable (stepOne c u).1 v := by
  rcases hv with hnil | ⟨b, hb, hact, hstable⟩
  · exact Or.inl hnil
  · exact Or.inr ⟨b, hb,
      by rw [stepOne_isActive_stable c u b hstable]; exact hact,
      (stepOne_stable c u b hstable).2⟩

theorem stepOne_preserves_deadStable (c : ExecCore) (u v : Updater)
    (hv : DeadStable c v) : DeadStable (stepOne c u).1 v := by
  obtain ⟨hne, hall⟩ := hv
  refine ⟨hne, fun b hb => ?_⟩
  obtain ⟨hact, hstable⟩ := hall b hb
  exact ⟨by rw [stepOne_isActive_stable c u b hstable]; exact hact,
    (stepOne_stable c u b hstable).2⟩

theorem stepOne_snd_uid (c : ExecCore) (u : Updater) (u' : Updater)
    (h : (stepOne c u).2 = some u') : u'.uid = u.uid := by
  simp only [stepOne] at h
  split at h
  · cases h
    rfl
  · split at h
    · cases h
    · cases h
      rfl

theorem stepOne_tickLog_cases (c : ExecCore) (u : Updater) :
    ∃ e, (stepOne c u).1.tickLog = c.tickLog ++ e ∧
      (e = [] ∨ ∃ ok, e = [⟨u.uid, ok⟩]) := by
  simp only [stepOne]
  split
  · exact ⟨[], by simp, Or.inl rfl⟩
  · refine ⟨[⟨u.uid, !(u.script u.calls).throws⟩], ?_, Or.inr ⟨_, rfl⟩⟩
    split
    · rw [runRegs_tickLog]
    · rw [runRegs_tickLog]

/-! ### The reverse-order frame loop -/

theorem processRev_cons (c : ExecCore) (u : Updater) (rest : List Updater) :
    processRev c (u :: rest) =
      ((processRev (stepOne c u).1 rest).1,
       (stepOne c u).2.toList ++ (processRev (stepOne c u).1 rest).2) := rfl

theorem processRev_out_uids (c : ExecCore) (l : List Updater) :
    ((processRev c l).2.map Updater.uid).Sublist (l.map Updater.uid) := by
  induction l generalizing c with
  | nil => simp [processRev]
  | cons u rest ih =>
    rw [processRev_cons]
    simp only [List.map_append, List.map_cons]
    rcases hr : (stepOne c u).2 with _ | u'
    · simp only [Option.toList_none, List.map_nil, List.nil_append]
      exact (ih _).trans (List.sublist_cons_self _ _)
    · simp only [Option.toList_some, List.map_cons, List.map_nil, List.singleton_append]
      rw [stepOne_snd_uid c u u' hr]
      exact List.Sublist.cons₂ _ (ih _)

theorem processRev_tickLog_delta (c : ExecCore) (l : List Updater) :
    ∃ d, (processRev c l).1.tickLog = c.tickLog ++ d ∧
      (d.map TickEv.uid).Sublist (l.map Updater.uid) := by
  induction l generalizing c with
  | nil => exact ⟨[], by simp [processRev], by simp⟩
  | cons u rest ih =>
    obtain ⟨e, he, hcase⟩ := stepOne_tickLog_cases c u
    obtain ⟨d2, h2, hs2⟩ := ih (stepOne c u).1
    refine ⟨e ++ d2, ?_, ?_⟩
    · rw [processRev_cons]
      show (processRev (stepOne c u).1 rest).1.tickLog = _
      rw [h2, he, List.append_assoc]
    · rw [List.map_append, List.map_cons]
      rcases hcase with rfl | ⟨ok, rfl⟩
      · simpa using hs2.cons u.uid
      · simpa using hs2.cons₂ u.uid

theorem processRev_uidEvents_absent (c : ExecCore) (l : List Updater) (i : Nat)
    (hi : i ∉ l.map Updater.uid) :
    uidEvents (processRev c l).1.tickLog i = uidEvents c.tickLog i := by
  obtain ⟨d, hd, hs⟩ := processRev_tickLog_delta c l
  rw [hd, uidEvents, List.filter_append]
  have hnil : d.filter (fun e => e.uid == i) = [] := by
    rw [List.filter_eq_nil_iff]
    intro e hed hbeq
    have h1 : e.uid ∈ d.map TickEv.uid := List.mem_map_of_mem _ hed
    have h2 := hs.subset h1
    have h3 : e.uid = i := by simpa using hbeq
    rw [h3] at h2
    exact hi h2
  rw [hnil, List.append_nil]
  rfl

theorem nodup_head_notin (v : Updater) (rest : List Updater)
    (hnd : ((v :: rest).map Updater.uid).Nodup) :
    v.uid ∉ rest.map Updater.uid := by
  rw [List.map_cons, List.nodup_cons] at hnd
  exact hnd.1

theorem nodup_tail (v : Updater) (rest : List Updater)
    (hnd : ((v :: rest).map Updater.uid).Nodup) :
    (rest.map Updater.uid).Nodup := by
  rw [List.map_cons, List.nodup_cons] at hnd
  exact hnd.2

theorem stepOne_uidEvents_other (c : ExecCore) (v : Updater) (i : Nat)
    (hne : v.uid ≠ i) :
    uidEvents (stepOne c v).1.tickLog i = uidEvents c.tickLog i := by
  obtain ⟨e, he, hcase⟩ := stepOne_tickLog_cases c v
  rw [he, uidEvents, List.filter_append]
  rcases hcase with rfl | ⟨ok, rfl⟩
  · simp [uidEvents]
  · have hf : (TickEv.uid ⟨v.uid, ok⟩ == i) = false := by
      simp [hne]
    simp [uidEvents, hf]

theorem processRev_uidEvents_tick (u : Updater) (c : ExecCore) (l : List Updater)
    (hnd : (l.map Updater.uid).Nodup) (hu : u ∈ l) (ht : Tickable c u) :
    uidEvents (processRev c l).1.tickLog u.uid =
      uidEvents c.tickLog u.uid ++ [⟨u.uid, !(u.script u.calls).throws⟩] := by
  induction l generalizing c with
  | nil => cases hu
  | cons v rest ih =>
    rcases List.mem_cons.1 hu with rfl | hu'
    · have hguard := tickable_not_guard c u ht
      have huid : u.uid ∉ rest.map Updater.uid := nodup_head_notin u rest hnd
      rw [processRev_cons]
      show uidEvents (processRev (stepOne c u).1 rest).1.tickLog u.uid = _
      rw [processRev_uidEvents_absent _ _ _ huid]
      cases hthrow : (u.script u.calls).throws with
      | true =>
        rw [stepOne_tick_throw c u hguard hthrow]
        show uidEvents ((runRegs _ _).tickLog) u.uid = _
        rw [runRegs_tickLog]
        show uidEvents (c.tickLog ++ [⟨u.uid, !(u.script u.calls).throws⟩]) u.uid = _
        rw [uidEvents, List.filter_append]
        simp [uidEvents, hthrow]
      | false =>
        rw [stepOne_tick_ok c u hguard hthrow]
        show uidEvents ((runRegs _ _).tickLog) u.uid = _
        rw [runRegs_tickLog]
        show uidEvents (c.tickLog ++ [⟨u.uid, !(u.script u.calls).throws⟩]) u.uid = _
        rw [uidEvents, List.filter_append]
        simp [uidEvents, hthrow]
    · have hvne : v.uid ≠ u.uid := by
        intro hcontra
        exact nodup_head_notin v rest hnd
          (hcontra ▸ List.mem_map_of_mem Updater.uid hu')
      rw [processRev_cons]
      show uidEvents (processRev (stepOne c v).1 rest).1.tickLog u.uid = _
      rw [ih (stepOne c v).1 (nodup_tail v rest hnd) hu'
        (stepOne_preserves_tickable c v u ht)]
      rw [stepOne_uidEvents_other c v u.uid hvne]

/-! ### Survivors of a frame -/

theorem processRev_survive_tick (u : Updater) (hok : (u.script u.calls).throws = false)
    (c : ExecCore) (l : List Updater) (hnd : (l.map Updater.uid).Nodup)
    (hu : u ∈ l) (ht : Tickable c u) :
    { u with calls := u.calls + 1 } ∈ (processRev c l).2 := by
  induction l generalizing c with
  | nil => cases hu
  | cons v rest ih =>
    rcases List.mem_cons.1 hu with rfl | hu'
    · rw [processRev_cons, stepOne_tick_ok c u (tickable_not_guard c u ht) hok]
      exact List.mem_append.2 (Or.inl (by simp))
    · rw [processRev_cons]
      exact List.mem_append.2 (Or.inr
        (ih (stepOne c v).1 (nodup_tail v rest hnd) hu'
          (stepOne_preserves_tickable c v u ht)))

theorem processRev_removed_throw (u : Updater) (hthrow : (u.script u.calls).throws = true)
    (c : ExecCore) (l : List Updater) (hnd : (l.map Updater.uid).Nodup)
    (hu : u ∈ l) (ht : Tickable c u) :
    u.uid ∉ (processRev c l).2.map Updater.uid := by
  induction l generalizing c with
  | nil => cases hu
  | cons v rest ih =>
    rcases List.mem_cons.1 hu with rfl | hu'
    · rw [processRev_cons, stepOne_tick_throw c u (tickable_not_guard c u ht) hthrow]
      simp only [Option.toList_none, List.nil_append]
      intro hmem
      exact nodup_head_notin u rest hnd ((processRev_out_uids _ rest).subset hmem)
    · have hvne : v.uid ≠ u.uid := by
        intro hcontra
        exact nodup_head_notin v rest hnd
          (hcontra ▸ List.mem_map_of_mem Updater.uid hu')
      rw [processRev_cons, List.map_append]
      intro hmem
      rcases List.mem_append.1 hmem with h1 | h1
      · rcases hr : (stepOne c v).2 with _ | v'
        · rw [hr] at h1
          simp at h1
        · rw [hr] at h1
          simp only [Option.toList_some, List.map_cons, List.map_nil,
            List.mem_singleton] at h1
          rw [stepOne_snd_uid c v v' hr] at h1
          exact hvne h1.symm
      · exact ih (stepOne c v).1 (nodup_tail v rest hnd) hu'
          (stepOne_preserves_tickable c v u ht) h1

theorem processRev_dead_marked (u : Updater) (c : ExecCore) (l : List Updater)
    (hnd : (l.map Updater.uid).Nodup) (hu : u ∈ l) (hdead : DeadStable c u) :
    { u with dead := true } ∈ (processRev c l).2 ∧
      uidEvents (processRev c l).1.tickLog u.uid = uidEvents c.tickLog u.uid := by
  induction l generalizing c with
  | nil => cases hu
  | cons v rest ih =>
    rcases List.mem_cons.1 hu with rfl | hu'
    · rw [processRev_cons, stepOne_skip c u (deadStable_guard c u hdead)]
      constructor
      · exact List.mem_append.2 (Or.inl (by simp))
      · exact processRev_uidEvents_absent c rest u.uid (nodup_head_notin u rest hnd)
    · have hvne : v.uid ≠ u.uid := by
        intro hcontra
        exact nodup_head_notin v rest hnd
          (hcontra ▸ List.mem_map_of_mem Updater.uid hu')
      rw [processRev_cons]
      have hrec := ih (stepOne c v).1 (nodup_tail v rest hnd) hu'
        (stepOne_preserves_deadStable c v u hdead)
      exact ⟨List.mem_append.2 (Or.inr hrec.1),
        hrec.2.trans (stepOne_uidEvents_other c v u.uid hvne)⟩

/-! ### Frame-level corollaries (`runFrame`, `runFrames`) -/

theorem runFrame_eq (st : SimState) :
    runFrame st = { st with core := (processRev st.core st.updaters.reverse).1,
                            updaters := (processRev st.core st.updaters.reverse).2.reverse } := rfl

theorem runFrame_updaters_uids (st : SimState) :
    ((runFrame st).updaters.map Updater.uid).Sublist
      (st.updaters.map Updater.uid) := by
  have h := processRev_out_uids st.core st.updaters.reverse
  rw [List.map_reverse] at h
  have h2 := h.reverse
  rw [List.reverse_reverse] at h2
  show (((processRev st.core st.updaters.reverse).2.reverse).map Updater.uid).Sublist _
  rw [List.map_reverse]
  exact h2

theorem runFrame_nodup (st : SimState)
    (hnd : (st.updaters.map Updater.uid).Nodup) :
    ((runFrame st).updaters.map Updater.uid).Nodup :=
  (runFrame_updaters_uids st).nodup hnd

theorem reverse_uid_nodup (st : SimState)
    (hnd : (st.updaters.map Updater.uid).Nodup) :
    (st.updaters.reverse.map Updater.uid).Nodup := by
  rw [List.map_reverse]
  exact List.nodup_reverse.2 hnd

theorem runFrame_tick_ok (st : SimState) (u : Updater)
    (hnd : (st.updaters.map Updater.uid).Nodup) (hu : u ∈ st.updaters)
    (ht : Tickable st.core u) (hok : (u.script u.calls).throws = false) :
    { u with calls := u.calls + 1 } ∈ (runFrame st).updaters ∧
      uidEvents (runFrame st).core.tickLog u.uid =
        uidEvents st.core.tickLog u.uid ++ [⟨u.uid, true⟩] := by
  have hnd' := reverse_uid_nodup st hnd
  have hu' : u ∈ st.updaters.reverse := List.mem_reverse.2 hu
  constructor
  · show _ ∈ (processRev st.core st.updaters.reverse).2.reverse
    exact List.mem_reverse.2 (processRev_survive_tick u hok st.core _ hnd' hu' ht)
  · have h := processRev_uidEvents_tick u st.core st.updaters.reverse hnd' hu' ht
    rw [hok] at h
    simpa using h

theorem runFrame_tick_throw (st : SimState) (u : Updater)
    (hnd : (st.updaters.map Updater.uid).Nodup) (hu : u ∈ st.updaters)
    (ht : Tickable st.core u) (hthrow : (u.script u.calls).throws = true) :
    u.uid ∉ (runFrame st).updaters.map Updater.uid ∧
      uidEvents (runFrame st).core.tickLog u.uid =
        uidEvents st.core.tickLog u.uid ++ [⟨u.uid, false⟩] := by
  have hnd' := reverse_uid_nodup st hnd
  have hu' : u ∈ st.updaters.reverse := List.mem_reverse.2 hu
  constructor
  · show u.uid ∉ ((processRev st.core st.updaters.reverse).2.reverse).map Updater.uid
    rw [List.map_reverse]
    intro hmem
    exact processRev_removed_throw u hthrow st.core _ hnd' hu' ht
      (List.mem_reverse.1 hmem)
  · have h := processRev_uidEvents_tick u st.core st.updaters.reverse hnd' hu' ht
    rw [hthrow] at h
    simpa using h

theorem runFrame_dead (st : SimState) (u : Updater)
    (hnd : (st.updaters.map Updater.uid).Nodup) (hu : u ∈ st.updaters)
    (hdead : DeadStable st.core u) :
    { u with dead := true } ∈ (runFrame st).updaters ∧
      uidEvents (runFrame st).core.tickLog u.uid =
        uidEvents st.core.tickLog u.uid := by
  have hnd' := reverse_uid_nodup st hnd
  have hu' : u ∈ st.updaters.reverse := List.mem_reverse.2 hu
  have h := processRev_dead_marked u st.core st.updaters.reverse hnd' hu' hdead
  exact ⟨List.mem_reverse.2 h.1, h.2⟩

theorem runFrames_succ (st : SimState) (n : Nat) :
    runFrames st (n + 1) = runFrames (runFrame st) n := rfl

/-- A behavior with an empty root-body set and a never-throwing script is
ticked on every one of `n` consecutive frames, never marked dead, and
still present afterwards with its invocation count advanced by `n`. -/
theorem runFrames_no_roots (n : Nat) : ∀ (st : SimState) (u : Updater),
    u.rootBodies = [] → (∀ k, (u.script k).throws = false) →
    (st.updaters.map Updater.uid).Nodup → u ∈ st.updaters →
    { u with calls := u.calls + n } ∈ (runFrames st n).updaters ∧
      ((runFrames st n).updaters.map Updater.uid).Nodup ∧
      uidEvents (runFrames st n).core.tickLog u.uid =
        uidEvents st.core.tickLog u.uid ++ List.replicate n ⟨u.uid, true⟩ := by
  induction n with
  | zero =>
    intro st u _ _ hnd hu
    exact ⟨hu, hnd, by simp [runFrames]⟩
  | succ n ih =>
    intro st u hroots hnothrow hnd hu
    have hstep := runFrame_tick_ok st u hnd hu (Or.inl hroots) (hnothrow u.calls)
    have hnd1 := runFrame_nodup st hnd
    have hrec := ih (runFrame st) { u with calls := u.calls + 1 }
      hroots hnothrow hnd1 hstep.1
    have hcalls : ({ u with calls := u.calls + 1 } : Updater).calls + n =
        u.calls + (n + 1) := by
      show u.calls + 1 + n = u.calls + (n + 1)
      omega
    rw [runFrames_succ]
    refine ⟨?_, hrec.2.1, ?_⟩
    · have := hrec.1
      rw [hcalls] at this
      exact this
    · have := hrec.2.2
      show uidEvents (runFrames (runFrame st) n).core.tickLog u.uid = _
      rw [this, hstep.2, List.append_assoc, List.replicate_succ]
      rfl

/-! ### The freshly created body through the register mutations -/

theorem lookupBody_createBody_self (w : World) (g : Int) (d : List Int)
    (hwf : ∀ p ∈ w.bodies, p.1 < w.nextId) :
    lookupBody (createBody w g d).2 w.nextId =
      some { gravityScale := g, densities := d,
             isEphemeralUD := false, active := true } := by
  simp only [lookupBody, createBody]
  have hnone : w.bodies.find? (fun p => p.1 == w.nextId) = none := by
    rw [List.find?_eq_none]
    intro p hp
    simp only [beq_iff_eq]
    exact Nat.ne_of_lt (hwf p hp)
  rw [List.find?_append, hnone]
  simp [List.find?]

theorem lookupBody_zeroBodyWeight_self (w : World) (bid : Nat) :
    lookupBody (zeroBodyWeight w bid) bid = (lookupBody w bid).map zeroWeight := by
  simp only [lookupBody, zeroBodyWeight]
  induction w.bodies with
  | nil => simp
  | cons hd tl ih =>
    by_cases hb : hd.1 = bid
    · rw [List.map_cons, if_pos hb, List.find?_cons_of_pos, List.find?_cons_of_pos]
      · simp
      · simp [hb]
      · simp [hb]
    · rw [List.map_cons, if_neg hb, List.find?_cons_of_neg, List.find?_cons_of_neg]
      · exact ih
      · simp [hb]
      · simp [hb]

/-! ### Cache state invariance on a full miss -/

theorem cacheGetRemote_none_state (cs : CacheState) (key : String)
    (h : (cacheGet.cacheGetRemote cs key).1 = none) :
    (cacheGet.cacheGetRemote cs key).2 = cs := by
  rw [cacheGet.cacheGetRemote] at h ⊢
  rcases hr : getFirebase cs.remote key with _ | rv
  · rfl
  · rw [hr] at h
    by_cases hrv : rv = ""
    · show (if rv = "" then ((none : Option String), cs)
          else (some rv, { cs with localTier := setLocal cs.localTier key rv })).2 = cs
      rw [if_pos hrv]
    · exfalso
      replace h : ((if rv = "" then ((none : Option String), cs)
          else (some rv, { cs with localTier := setLocal cs.localTier key rv }))).1
            = none := h
      rw [if_neg hrv] at h
      cases h

theorem cacheGet_none_state (cs : CacheState) (key : String)
    (h : (cacheGet cs key).1 = none) : (cacheGet cs key).2 = cs := by
  rw [cacheGet] at h ⊢
  rcases hl : getLocal cs.localTier key with _ | lv
  · rw [hl] at h
    replace h : (cacheGet.cacheGetRemote cs key).1 = none := h
    show (cacheGet.cacheGetRemote cs key).2 = cs
    exact cacheGetRemote_none_state cs key h
  · rw [hl] at h
    by_cases hlv : lv = ""
    · replace h : (if lv = "" then cacheGet.cacheGetRemote cs key
          else (some lv, cs)).1 = none := h
      rw [if_pos hlv] at h
      show (if lv = "" then cacheGet.cacheGetRemote cs key else (some lv, cs)).2 = cs
      rw [if_pos hlv]
      exact cacheGetRemote_none_state cs key h
    · exfalso
      replace h : (if lv = "" then cacheGet.cacheGetRemote cs key
          else (some lv, cs)).1 = none := h
      rw [if_neg hlv] at h
      cases h

/-! ### Local cache hit -/

theorem cacheGet_local_hit (cs : CacheState) (key code : String)
    (h : getLocal cs.localTier key = some code) (hne : code ≠ "") :
    cacheGet cs key = (some code, cs) := by
  simp only [cacheGet, h, if_neg hne]

/-! ## Claim C3 — cache round-trip -/

/-- C3 (counterexample to the claim as stated): for the empty-string
artifact, `set("k", "")` followed by `get("k")` with the remote tier
unreachable returns `none`, not the artifact — the `if (local)`
truthiness test in `cache.get` treats the parsed empty string as a
miss. -/
theorem c3_counterexample :
    (cacheGet (cacheSet emptyCache "k" "") "k").1 = none ∧
    (none : Option String) ≠ some "" := by
  constructor
  · decide
  · decide

/-- C3 (amended): for every key and every *nonempty* artifact, `set(K, A)`
followed immediately by `get(K)` returns `A`, with the remote tier
arbitrary — in particular unreachable; the local write of `set` is the
synchronous `setLocal` and the fire-and-forget remote write can never
fail the call (`cacheSet` is a total function). -/
theorem c3_cache_round_trip (cs : CacheState) (key code : String)
    (h : code ≠ "") :
    (cacheGet (cacheSet cs key code) key).1 = some code ∧
    (cacheSet cs key code).localTier = setLocal cs.localTier key code :=
  ⟨cacheGet_cacheSet_self cs key code h, rfl⟩

/-- C3 witness: the amended round-trip at a concrete key and artifact on
an unreachable remote tier. -/
theorem c3_witness :
    (cacheGet (cacheSet emptyCache "rain" "makeRain()") "rain").1 =
      some "makeRain()" :=
  (c3_cache_round_trip emptyCache "rain" "makeRain()" (by decide)).1

/-! ## Claim C7 — promotion of remote hits -/

/-- C7 (counterexample to the claim as stated): with the local tier empty
and the remote tier holding the empty-string artifact under key "k",
`get("k")` returns `none` and promotes nothing — the `if (remote)`
truthiness test skips the promotion branch. -/
theorem c7_counterexample :
    (cacheGet ⟨[], .reachable [("k", "")]⟩ "k").1 = none ∧
    (cacheGet ⟨[], .reachable [("k", "")]⟩ "k").2 =
      ⟨[], .reachable [("k", "")]⟩ ∧
    (none : Option String) ≠ some "" := by
  refine ⟨by decide, by decide, by decide⟩

/-- C7 (amended): if the local tier has no entry for `K` and the remote
tier is reachable and holds a *nonempty* artifact `A` under the sanitized
key, then `get(K)` writes `A` into the local tier and returns `A`, and a
subsequent `get(K)` with the remote tier now unreachable still returns
`A`. -/
theorem c7_promotion (ls rstore : List (String × String)) (key code : String)
    (hcode : code ≠ "") (hlocal : getLocal ls key = none)
    (hremote : storeGet rstore (encodeFirebaseKey key) = some code) :
    (cacheGet ⟨ls, .reachable rstore⟩ key).1 = some code ∧
    getLocal (cacheGet ⟨ls, .reachable rstore⟩ key).2.localTier key = some code ∧
    (∀ ls2 : List (String × String), getLocal ls2 key = some code →
      (cacheGet ⟨ls2, .unreachable⟩ key).1 = some code) := by
  have hfb : getFirebase (RemoteTier.reachable rstore) key = some code := hremote
  have h1 : cacheGet ⟨ls, .reachable rstore⟩ key =
      (some code, ⟨setLocal ls key code, .reachable rstore⟩) := by
    simp only [cacheGet, hlocal, cacheGet.cacheGetRemote, hfb, if_neg hcode]
  refine ⟨by rw [h1], ?_, ?_⟩
  · rw [h1]
    exact getLocal_setLocal_self ls key code
  · intro ls2 h2
    rw [cacheGet_local_hit ⟨ls2, .unreachable⟩ key code h2 hcode]

/-- C7 witness: promotion at a concrete key and artifact. -/
theorem c7_witness :
    (cacheGet ⟨[], .reachable [("rain", "makeRain()")]⟩ "rain").1 =
      some "makeRain()" :=
  (c7_promotion [] [("rain", "makeRain()")] "rain" "makeRain()"
    (by decide) (by decide) (by decide)).1

/-! ## Claim C9 — compile failure: distinct error kind, nothing cached -/

/-- C9: for every artifact the engine reads as malformed, a submission
that misses the cache fails with the compilation ("Syntax error") kind —
distinct from the execution ("Runtime error") kind — and neither cache
tier is written for that submission, nor is the simulation state touched
(`cache.set` runs only after `execute` returns without throwing). -/
theorem c9_compile_failure_nothing_cached (decode : String → Artifact)
    (key code : String) (cs : CacheState) (st : SimState)
    (hmiss : (cacheGet cs key).1 = none)
    (hmal : decode code = Artifact.malformed) :
    submitPipeline decode (some key) (some code) cs st =
      (some (SubmitError.execution ExecError.syntaxError), cs, st) ∧
    SubmitError.execution ExecError.syntaxError ≠
      SubmitError.execution ExecError.runtimeError := by
  constructor
  · have hpair : cacheGet cs key = (none, cs) := by
      rw [Prod.ext_iff]
      exact ⟨hmiss, cacheGet_none_state cs key hmiss⟩
    simp only [submitPipeline, hpair, hmal, execute]
  · decide

/-- C9 witness: a concrete malformed artifact on an empty cache. -/
theorem c9_witness :
    submitPipeline (fun _ => Artifact.malformed) (some "k") (some "oops(")
        emptyCache emptySim =
      (some (SubmitError.execution ExecError.syntaxError), emptyCache, emptySim) :=
  (c9_compile_failure_nothing_cached (fun _ => Artifact.malformed) "k" "oops("
    emptyCache emptySim (by decide) rfl).1

/-! ## Claim C6 — single-flight submissions -/

theorem orchStep_inv (s : OrchState) (e : OrchEv) (hs : OrchInv s) :
    OrchInv (orchStep s e) := by
  obtain ⟨hlen, hiff⟩ := hs
  cases e with
  | submit i =>
    by_cases hg : s.isGenerating = true
    · simp only [orchStep, if_pos hg]
      exact ⟨hlen, hiff⟩
    · simp only [orchStep, if_neg hg]
      have hact : s.active = [] := by
        by_contra hne
        exact hg (hiff.2 hne)
      constructor
      · simp [hact]
      · simp [hact]
  | finish i =>
    by_cases hm : i ∈ s.active
    · have hsingle : s.active = [i] := by
        cases hs : s.active with
        | nil => rw [hs] at hm; cases hm
        | cons a t =>
          cases t with
          | nil =>
            rw [hs] at hm
            rcases List.mem_singleton.1 hm with rfl
            rfl
          | cons b t2 =>
            rw [hs] at hlen
            simp at hlen
      simp only [orchStep, if_pos hm]
      constructor
      · simp [hsingle]
      · simp [hsingle]
    · simp only [orchStep, if_neg hm]
      exact ⟨hlen, hiff⟩

theorem orchRun_inv (evs : List OrchEv) (s : OrchState) (hs : OrchInv s) :
    OrchInv (orchRun s evs) := by
  induction evs generalizing s with
  | nil => exact hs
  | cons e rest ih => exact ih (orchStep s e) (orchStep_inv s e hs)

/-- C6: single-flight.  (a) From the initial state, every event trace
keeps `OrchInv`: at most one submission is in flight and the
`isGenerating` lock is held exactly while one is.  (b) A submission
arriving while the lock is held is rejected: only the ghost rejection log
changes.  (c) When the in-flight submission terminates (its `finally`
runs, whether after success or failure) the lock is released and a new
submission is then accepted. -/
theorem c6_single_flight :
    (∀ evs : List OrchEv, OrchInv (orchRun orchInit evs)) ∧
    (∀ (s : OrchState) (i : Nat), s.isGenerating = true →
      orchStep s (.submit i) = { s with rejected := s.rejected ++ [i] }) ∧
    (∀ (s : OrchState) (i j : Nat), s.active = [i] →
      (orchStep s (.finish i)).isGenerating = false ∧
      (orchStep s (.finish i)).active = [] ∧
      (orchStep (orchStep s (.finish i)) (.submit j)).isGenerating = true ∧
      (orchStep (orchStep s (.finish i)) (.submit j)).active = [j]) := by
  refine ⟨?_, ?_, ?_⟩
  · intro evs
    exact orchRun_inv evs orchInit ⟨by simp [orchInit], by simp [orchInit]⟩
  · intro s i hg
    simp only [orchStep, if_pos hg]
  · intro s i j hact
    have hm : i ∈ s.active := by simp [hact]
    have h1 : orchStep s (.finish i) =
        { s with isGenerating := false, active := s.active.erase i } := by
      simp only [orchStep, if_pos hm]
    have h2 : (orchStep s (.finish i)).active = [] := by
      rw [h1]
      simp [hact]
    refine ⟨by rw [h1], h2, ?_, ?_⟩
    · rw [h1]
      simp [orchStep, hact]
    · rw [h1]
      simp [orchStep, hact]

/-- C6 witness: submission 1 is accepted, submission 2 arriving while 1
is in flight is rejected, and after 1 finishes submission 3 is
accepted. -/
theorem c6_witness :
    OrchInv (orchRun orchInit
      [.submit 1, .submit 2, .finish 1, .submit 3]) ∧
    (orchRun orchInit [.submit 1, .submit 2, .finish 1, .submit 3]).active = [3] ∧
    (orchRun orchInit [.submit 1, .submit 2, .finish 1, .submit 3]).rejected = [2] :=
  ⟨c6_single_flight.1 [.submit 1, .submit 2, .finish 1, .submit 3],
   by decide, by decide⟩

/-! ## Claim C1 — the ephemeral ring buffer is bounded, evicting FIFO -/

set_option maxRecDepth 100000 in
/-- C1: the global ephemeral ring buffer is bounded by
`MAX_EPHEMERAL = 200` across any update-time registration; when a
registration arrives with the ring at (or past) capacity the oldest entry
(the head) is shifted off first: it is removed from the Object Registry
(first identity match) and its body destroyed, regardless of which
behavior produced it.  Concretely, 250 update-time registrations in
sequence (as a tick's registrations run through `runRegs`) leave
exactly 200 objects tracked — the newest ones, body ids 50–249, in both
the ring and the registry — and the 50 oldest (body ids 0–49) each
destroyed exactly once: no double-destroy, no leak. -/
theorem c1_ring_buffer_bound :
    (∀ (c : ExecCore) (spec : RegSpec),
      c.ephemeral.length ≤ MAX_EPHEMERAL →
      (wrappedRegister true c spec).1.ephemeral.length ≤ MAX_EPHEMERAL) ∧
    (∀ (c : ExecCore) (spec : RegSpec) (hd : Obj) (tl : List Obj),
      c.ephemeral = hd :: tl → MAX_EPHEMERAL ≤ c.ephemeral.length →
      (wrappedRegister true c spec).1.ephemeral = tl ++ [newObjOf c] ∧
      (wrappedRegister true c spec).1.world.destroyLog =
        c.world.destroyLog ++ [hd.bodyId] ∧
      (wrappedRegister true c spec).1.registry =
        (c.registry ++ [newObjOf c]).eraseP (fun o => o.oid == hd.oid)) ∧
    (reg250.ephemeral.map Obj.bodyId = List.range' 50 200 ∧
     reg250.registry.map Obj.bodyId = List.range' 50 200 ∧
     reg250.world.destroyLog = List.range 50 ∧
     reg250.ephemeral.length = 200 ∧
     (∀ b, b < 50 → (reg250.world.destroyLog).count b = 1) ∧
     (∀ b, 50 ≤ b → (reg250.world.destroyLog).count b = 0)) := by
  refine ⟨?_, ?_, ?_⟩
  · intro c spec h
    exact wrappedRegister_true_ephemeral_le c spec h
  · intro c spec hd tl he hge
    rw [wrappedRegister_true_evict c spec hd tl he hge]
    refine ⟨rfl, ?_, rfl⟩
    show (destroyBody _ _).destroyLog = _
    rw [destroyBody_destroyLog, zeroBodyWeight_destroyLog, createBody_snd_destroyLog]
  · have hE : reg250.ephemeral.map Obj.bodyId =
        List.range' 50 200 := by decide
    have hR : reg250.registry.map Obj.bodyId =
        List.range' 50 200 := by decide
    have hD : reg250.world.destroyLog = List.range 50 := by
      decide
    have hLen : reg250.ephemeral.length = 200 := by
      have := congrArg List.length hE
      rwa [List.length_map, List.length_range'] at this
    refine ⟨hE, hR, hD, hLen, ?_, ?_⟩
    · intro b hb
      rw [hD]
      revert hb
      revert b
      decide
    · intro b hb
      rw [hD]
      exact List.count_eq_zero_of_not_mem (by simp; omega)

set_option maxRecDepth 100000 in
/-- C1 witness: the bound at an empty ring, and FIFO eviction at a full
ring — the head (body id 0) is destroyed and the tail plus the new object
remain. -/
theorem c1_witness :
    (wrappedRegister true emptyCore unitSpec).1.ephemeral.length ≤
      MAX_EPHEMERAL ∧
    (wrappedRegister true fullCore unitSpec).1.ephemeral =
      ring200.tail ++ [newObjOf fullCore] ∧
    (wrappedRegister true fullCore unitSpec).1.world.destroyLog =
      fullCore.world.destroyLog ++
        [({ oid := 0, bodyId := 0, spawned := true, ephemeral := true } : Obj).bodyId] := by
  refine ⟨c1_ring_buffer_bound.1 emptyCore unitSpec (by decide), ?_, ?_⟩
  · exact (c1_ring_buffer_bound.2.1 fullCore unitSpec
      { oid := 0, bodyId := 0, spawned := true, ephemeral := true } ring200.tail
      (by decide) (by decide)).1
  · exact (c1_ring_buffer_bound.2.1 fullCore unitSpec
      { oid := 0, bodyId := 0, spawned := true, ephemeral := true } ring200.tail
      (by decide) (by decide)).2.1

/-! ## Claim C2 — tick-failure isolation -/

/-- C2: if a behavior's update throws during a tick, that behavior alone
is spliced out of the active set (and, once out, never returns on later
frames), while every other live behavior still gets its one tick on the
same frame.  Concretely, a behavior that throws on its 3rd tick is ticked
exactly twice successfully, its 3rd invocation throws, it is never ticked
again, and an unrelated behavior ticks normally on all 5 frames.  (The
loop's `catch` absorbs the exception — `runFrame` is a total function —
so the simulation continues; nothing is surfaced to the user.) -/
theorem c2_tick_failure_isolation :
    (∀ (st : SimState) (u : Updater),
      (st.updaters.map Updater.uid).Nodup → u ∈ st.updaters →
      Tickable st.core u → (u.script u.calls).throws = true →
      u.uid ∉ (runFrame st).updaters.map Updater.uid ∧
      uidEvents (runFrame st).core.tickLog u.uid =
        uidEvents st.core.tickLog u.uid ++ [⟨u.uid, false⟩] ∧
      (∀ v ∈ st.updaters, v.uid ≠ u.uid → Tickable st.core v →
        (v.script v.calls).throws = false →
        { v with calls := v.calls + 1 } ∈ (runFrame st).updaters ∧
        uidEvents (runFrame st).core.tickLog v.uid =
          uidEvents st.core.tickLog v.uid ++ [⟨v.uid, true⟩])) ∧
    (∀ (st : SimState) (i : Nat), i ∉ st.updaters.map Updater.uid →
      i ∉ (runFrame st).updaters.map Updater.uid) ∧
    (uidEvents (runFrames stFault 5).core.tickLog 0 =
      [⟨0, true⟩, ⟨0, true⟩, ⟨0, false⟩] ∧
     uidEvents (runFrames stFault 5).core.tickLog 1 =
      List.replicate 5 ⟨1, true⟩ ∧
     (runFrames stFault 5).updaters.map Updater.uid = [1]) := by
  refine ⟨?_, ?_, ?_, ?_, ?_⟩
  · intro st u hnd hu ht hthrow
    have h1 := runFrame_tick_throw st u hnd hu ht hthrow
    refine ⟨h1.1, h1.2, ?_⟩
    intro v hv _ htv hokv
    exact runFrame_tick_ok st v hnd hv htv hokv
  · intro st i hi hmem
    exact hi ((runFrame_updaters_uids st).subset hmem)
  · decide
  · decide
  · decide

/-- C2 witness: after 2 frames the throwing behavior's 3rd invocation
throws; it is removed and the throw is logged. -/
theorem c2_witness :
    (0 : Nat) ∉ (runFrame (runFrames stFault 2)).updaters.map Updater.uid ∧
    uidEvents (runFrame (runFrames stFault 2)).core.tickLog 0 =
      uidEvents (runFrames stFault 2).core.tickLog 0 ++ [⟨0, false⟩] := by
  have hupd : (runFrames stFault 2).updaters =
      [{ uid := 0, dead := false, rootBodies := [],
         script := throwsThirdScript, calls := 2 },
       { uid := 1, dead := false, rootBodies := [],
         script := benignScript, calls := 2 }] := rfl
  have h := c2_tick_failure_isolation.1 (runFrames stFault 2)
    { uid := 0, dead := false, rootBodies := [],
      script := throwsThirdScript, calls := 2 }
    (by decide)
    (by rw [hupd]; exact List.mem_cons_self _ _)
    (Or.inl rfl)
    rfl
  exact ⟨h.1, h.2.1⟩

/-! ## Claim C4 — setup-vs-update tagging -/

/-- C4: a setup-time registration tags the object `spawned = true`,
leaves `ephemeral` falsy, appends it to the Object Registry with no
capacity bound (registry append is unconditional), touches neither the
ring buffer nor any body property, and destroys nothing; an update-time
registration tags the object `ephemeral = true`, appends it as the newest
ring entry, and zeroes the backing body's gravity scale and every fixture
density (tagging its user data ephemeral) before any eviction.  The
freshness hypotheses are the reachable-state invariants that body ids are
allocated below `nextId`. -/
theorem c4_setup_vs_update_tagging :
    (∀ (c : ExecCore) (spec : RegSpec),
      (∀ p ∈ c.world.bodies, p.1 < c.world.nextId) →
      (wrappedRegister false c spec).1.registry = c.registry ++ [newSetupObjOf c] ∧
      (newSetupObjOf c).ephemeral = false ∧
      (newSetupObjOf c).spawned = true ∧
      (wrappedRegister false c spec).1.ephemeral = c.ephemeral ∧
      (wrappedRegister false c spec).1.world.destroyLog = c.world.destroyLog ∧
      lookupBody (wrappedRegister false c spec).1.world
          (wrappedRegister false c spec).2 =
        some { gravityScale := spec.gravityScale, densities := spec.densities,
               isEphemeralUD := false, active := true }) ∧
    (∀ (c : ExecCore) (spec : RegSpec),
      (∀ p ∈ c.world.bodies, p.1 < c.world.nextId) →
      (∀ o ∈ c.ephemeral, o.bodyId < c.world.nextId) →
      (newObjOf c).ephemeral = true ∧
      (newObjOf c).spawned = true ∧
      (wrappedRegister true c spec).1.ephemeral.getLast? = some (newObjOf c) ∧
      lookupBody (wrappedRegister true c spec).1.world c.world.nextId =
        some { gravityScale := 0, densities := spec.densities.map (fun _ => 0),
               isEphemeralUD := true, active := true }) := by
  constructor
  · intro c spec hwf
    rw [wrappedRegister_false]
    refine ⟨rfl, rfl, rfl, rfl, ?_, ?_⟩
    · exact createBody_snd_destroyLog c.world spec.gravityScale spec.densities
    · show lookupBody (createBody c.world spec.gravityScale spec.densities).2
          c.world.nextId = _
      exact lookupBody_createBody_self c.world spec.gravityScale spec.densities hwf
  · intro c spec hwf hring
    have hlook : lookupBody
        (zeroBodyWeight (createBody c.world spec.gravityScale spec.densities).2
          c.world.nextId) c.world.nextId =
        some { gravityScale := 0, densities := spec.densities.map (fun _ => 0),
               isEphemeralUD := true, active := true } := by
      rw [lookupBody_zeroBodyWeight_self,
        lookupBody_createBody_self c.world spec.gravityScale spec.densities hwf]
      simp [zeroWeight]
    by_cases hcap : MAX_EPHEMERAL < c.ephemeral.length + 1
    · cases he : c.ephemeral with
      | nil =>
        rw [he] at hcap
        simp [MAX_EPHEMERAL] at hcap
      | cons hd tl =>
        have hge : MAX_EPHEMERAL ≤ c.ephemeral.length := by
          rw [he]
          rw [he] at hcap
          simp at hcap ⊢
          omega
        rw [wrappedRegister_true_evict c spec hd tl he hge]
        refine ⟨rfl, rfl, ?_, ?_⟩
        · show (tl ++ [newObjOf c]).getLast? = some (newObjOf c)
          rw [List.getLast?_concat]
        · have hhd : hd.bodyId < c.world.nextId :=
            hring hd (by rw [he]; exact List.mem_cons_self hd tl)
          show lookupBody (destroyBody _ hd.bodyId) c.world.nextId = _
          rw [lookupBody_destroyBody _ _ _ (Nat.ne_of_gt hhd)]
          exact hlook
    · rw [wrappedRegister_true_noevict c spec (by omega)]
      refine ⟨rfl, rfl, ?_, hlook⟩
      show (c.ephemeral ++ [newObjOf c]).getLast? = some (newObjOf c)
      rw [List.getLast?_concat]

/-- C4 witness: both registration modes at a concrete fresh core. -/
theorem c4_witness :
    (wrappedRegister false emptyCore unitSpec).1.registry =
      emptyCore.registry ++ [newSetupObjOf emptyCore] ∧
    (newSetupObjOf emptyCore).ephemeral = false ∧
    (newObjOf emptyCore).ephemeral = true ∧
    (wrappedRegister true emptyCore unitSpec).1.ephemeral.getLast? =
      some (newObjOf emptyCore) ∧
    lookupBody (wrappedRegister true emptyCore unitSpec).1.world
        emptyCore.world.nextId =
      some { gravityScale := 0, densities := [0],
             isEphemeralUD := true, active := true } := by
  have h1 := c4_setup_vs_update_tagging.1 emptyCore unitSpec (by decide)
  have h2 := c4_setup_vs_update_tagging.2 emptyCore unitSpec (by decide) (by decide)
  exact ⟨h1.1, h1.2.1, h2.1, h2.2.2.1, h2.2.2.2⟩

/-! ## Claim C5 — root-body death -/

/-- C5 (counterexample to the claim as stated): a behavior whose only
root body is inactive is skipped (no tick event) and marks itself dead on
the next frame, but it is *not* removed from the executor's updater list
(the loop only splices updaters whose update throws): it is still there,
dead and skipped, after 1 and after 3 frames. -/
theorem c5_counterexample :
    (runFrame stDeadRoot).updaters.map Updater.uid = [0] ∧
    (runFrame stDeadRoot).updaters.map Updater.dead = [true] ∧
    uidEvents (runFrame stDeadRoot).core.tickLog 0 = [] ∧
    (runFrames stDeadRoot 3).updaters.map Updater.uid = [0] := by
  refine ⟨by decide, by decide, by decide, by decide⟩

/-- C5 (amended): for every behavior with at least one root body, once
every one of its root bodies is inactive (stably so), the next tick is
skipped without invoking the generated update and the behavior marks
itself dead; the handle remains in the updater list (only a throwing
update would remove it). -/
theorem c5_root_death_skips_and_marks_dead (st : SimState) (u : Updater)
    (hnd : (st.updaters.map Updater.uid).Nodup) (hu : u ∈ st.updaters)
    (hne : u.rootBodies ≠ [])
    (hall : ∀ b ∈ u.rootBodies,
      isActiveB st.core.world b = false ∧ BodyStable st.core b) :
    { u with dead := true } ∈ (runFrame st).updaters ∧
      uidEvents (runFrame st).core.tickLog u.uid =
        uidEvents st.core.tickLog u.uid :=
  runFrame_dead st u hnd hu ⟨hne, hall⟩

/-- C5 witness: the concrete one-root-body behavior after its body was
deactivated. -/
theorem c5_witness :
    ({ uid := 0, dead := true, rootBodies := [0],
       script := benignScript, calls := 0 } : Updater) ∈
      (runFrame stDeadRoot).updaters ∧
    uidEvents (runFrame stDeadRoot).core.tickLog 0 =
      uidEvents stDeadRoot.core.tickLog 0 := by
  have hupd : stDeadRoot.updaters =
      [{ uid := 0, dead := false, rootBodies := [0],
         script := benignScript, calls := 0 }] := rfl
  exact c5_root_death_skips_and_marks_dead stDeadRoot
    { uid := 0, dead := false, rootBodies := [0],
      script := benignScript, calls := 0 }
    (by decide)
    (by rw [hupd]; exact List.mem_cons_self _ _)
    (by decide)
    (by
      intro b hb
      rcases List.mem_singleton.1 hb with rfl
      exact ⟨by decide, by decide, by decide⟩)

/-! ## Claim C8 — per-frame tick discipline -/

/-- C8 (counterexample to the claim as stated): with two behaviors
registered in order 0 then 1, one frame ticks them in the order 1 then 0
— the loop iterates the updater array from the highest index down — so
behaviors are *not* ticked in registration order. -/
theorem c8_counterexample :
    stTwo.updaters.map Updater.uid = [0, 1] ∧
    (runFrame stTwo).core.tickLog.map TickEv.uid = [1, 0] ∧
    ([1, 0] : List Nat) ≠ [0, 1] := by
  refine ⟨by decide, by decide, by decide⟩

/-- C8 (amended): on every frame each behavior is ticked at most once and
each live (tickable) behavior exactly once — one new tick event per
behavior — and the tick events occur in *reverse* registration order. -/
theorem c8_each_ticked_once_reverse_order (st : SimState)
    (hnd : (st.updaters.map Updater.uid).Nodup) :
    (∃ d, (runFrame st).core.tickLog = st.core.tickLog ++ d ∧
      (d.map TickEv.uid).Sublist ((st.updaters.map Updater.uid).reverse) ∧
      (d.map TickEv.uid).Nodup) ∧
    (∀ u ∈ st.updaters, Tickable st.core u →
      uidEvents (runFrame st).core.tickLog u.uid =
        uidEvents st.core.tickLog u.uid ++
          [⟨u.uid, !(u.script u.calls).throws⟩]) := by
  constructor
  · obtain ⟨d, hd, hs⟩ := processRev_tickLog_delta st.core st.updaters.reverse
    rw [List.map_reverse] at hs
    exact ⟨d, hd, hs, hs.nodup (List.nodup_reverse.2 hnd)⟩
  · intro u hu ht
    exact processRev_uidEvents_tick u st.core st.updaters.reverse
      (reverse_uid_nodup st hnd) (List.mem_reverse.2 hu) ht

/-- C8 witness: with the two concrete behaviors, each gets exactly one
successful tick event on the frame. -/
theorem c8_witness :
    uidEvents (runFrame stTwo).core.tickLog 0 =
      uidEvents stTwo.core.tickLog 0 ++ [⟨0, true⟩] ∧
    uidEvents (runFrame stTwo).core.tickLog 1 =
      uidEvents stTwo.core.tickLog 1 ++ [⟨1, true⟩] := by
  have hupd : stTwo.updaters =
      [{ uid := 0, dead := false, rootBodies := [],
         script := benignScript, calls := 0 },
       { uid := 1, dead := false, rootBodies := [],
         script := benignScript, calls := 0 }] := rfl
  have h := c8_each_ticked_once_reverse_order stTwo (by decide)
  constructor
  · exact h.2 ⟨0, false, [], benignScript, 0⟩
      (by rw [hupd]; exact List.mem_cons_self _ _) (Or.inl rfl)
  · exact h.2 ⟨1, false, [], benignScript, 0⟩
      (by rw [hupd]; exact List.mem_cons_of_mem _ (List.mem_cons_self _ _))
      (Or.inl rfl)

/-! ## Claim C10 — behaviors with no root bodies are never reaped -/

/-- C10: for a behavior whose setup registered no objects (empty
root-body set) the root-body death guard can never fire — it requires at
least one root body, never holding vacuously — so with a never-throwing
update the behavior is ticked on every one of `n` frames indefinitely
(its handle survives with its invocation count advanced by `n` and its
`dead` flag untouched), and it leaves the active set only when an update
invocation throws. -/
theorem c10_no_root_bodies_never_reaped (st : SimState) (u : Updater) (n : Nat)
    (hroots : u.rootBodies = [])
    (hnd : (st.updaters.map Updater.uid).Nodup) (hu : u ∈ st.updaters) :
    (∀ c : ExecCore, ¬ (0 < u.rootBodies.length ∧
      (u.rootBodies.all fun b => !isActiveB c.world b) = true)) ∧
    ((∀ k, (u.script k).throws = false) →
      { u with calls := u.calls + n } ∈ (runFrames st n).updaters ∧
      uidEvents (runFrames st n).core.tickLog u.uid =
        uidEvents st.core.tickLog u.uid ++ List.replicate n ⟨u.uid, true⟩) ∧
    ((u.script u.calls).throws = true →
      u.uid ∉ (runFrame st).updaters.map Updater.uid) := by
  refine ⟨?_, ?_, ?_⟩
  · intro c hc
    rw [hroots] at hc
    simp at hc
  · intro hnothrow
    have h := runFrames_no_roots n st u hroots hnothrow hnd hu
    exact ⟨h.1, h.2.2⟩
  · intro hthrow
    exact (runFrame_tick_throw st u hnd hu (Or.inl hroots) hthrow).1

/-- C10 witness: a concrete root-less benign behavior is still live after
4 frames with 4 successful ticks and an unchanged `dead` flag. -/
theorem c10_witness :
    ({ uid := 0, dead := false, rootBodies := [],
       script := benignScript, calls := 4 } : Updater) ∈
      (runFrames stTwo 4).updaters ∧
    uidEvents (runFrames stTwo 4).core.tickLog 0 =
      uidEvents stTwo.core.tickLog 0 ++ List.replicate 4 ⟨0, true⟩ := by
  have hupd : stTwo.updaters =
      [{ uid := 0, dead := false, rootBodies := [],
         script := benignScript, calls := 0 },
       { uid := 1, dead := false, rootBodies := [],
         script := benignScript, calls := 0 }] := rfl
  have h := (c10_no_root_bodies_never_reaped stTwo
    { uid := 0, dead := false, rootBodies := [],
      script := benignScript, calls := 0 } 4 rfl (by decide)
    (by rw [hupd]; exact List.mem_cons_self _ _)).2.1 (fun k => rfl)
  exact ⟨h.1, h.2⟩

end GeminiDoodle
